import Mathlib

/-!
Shallow embedding of the response-parsing and route logic of the
AI-Evaluator backend (`src/backend/src/gemini.ts`,
`src/backend/src/routes/summarize.ts`).

Strings are modelled as `List Char`; the fixed regular expressions of the
source are modelled by explicit deterministic scanners.  Every pattern used
by the source has the property that adjacent sub-patterns draw from disjoint
character classes, so greedy scanning per start position, with start
positions tried left to right, gives exactly the leftmost-match semantics of
the JavaScript regex engine; the one optional group (`LINE:` in the code
issue pattern) is modelled with the explicit greedy-then-backtrack
alternative.  JavaScript numbers produced by `parseFloat`/`parseInt` on
digit captures are non-negative, so scores are modelled as `Nat`;
`Math.round` on a decimal numeral is modelled as round-half-up on the exact
decimal value (float64 artifacts on extreme numerals are out of scope).
-/

namespace AIEval

/-- JavaScript whitespace class `\s` (restricted to the code points the
repository can realistically see: space, tab, LF, CR, VT, FF, NBSP). -/
def isJsSpace (c : Char) : Bool :=
  c = ' ' || c = '\t' || c = '\n' || c = '\r' || c.val = 11 || c.val = 12 || c.val = 160

/-- JavaScript word class `\w` = `[A-Za-z0-9_]`. -/
def isWordChar (c : Char) : Bool :=
  c.isAlphanum || c = '_'

/-- `String.prototype.trim`, on char lists. -/
def trimChars (l : List Char) : List Char :=
  ((l.dropWhile isJsSpace).reverse.dropWhile isJsSpace).reverse

/-- `split('\n')` of the source, on char lists. -/
def splitNl : List Char → List (List Char)
  | [] => [[]]
  | c :: cs =>
    if c = '\n' then [] :: splitNl cs
    else
      match splitNl cs with
      | [] => [[c]]
      | h :: t => (c :: h) :: t

/-- `responseText.split('\n').map(line => line.trim()).filter(line => line.length > 0)`
(gemini.ts line 252/398). -/
def jsLines (text : List Char) : List (List Char) :=
  ((splitNl text).map trimChars).filter (fun l => !l.isEmpty)

/-- Case-insensitive literal: if `l` starts (up to ASCII case) with `pat`,
return the rest of `l`; models a `/i` literal in a regex. -/
def stripCI : List Char → List Char → Option (List Char)
  | [], l => some l
  | _ :: _, [] => none
  | p :: ps, c :: cs => if c.toLower = p.toLower then stripCI ps cs else none

/-- `line.toLowerCase().startsWith(pat)` for a lowercase ASCII `pat`. -/
def startsWithLower (pat : List Char) (l : List Char) : Bool :=
  pat.isPrefixOf (l.map Char.toLower)

/-- Numeric value of a (non-empty) decimal digit capture, `parseInt` style. -/
def digitsToNat (l : List Char) : Nat :=
  l.foldl (fun a c => 10 * a + (c.toNat - 48)) 0

/-- Parse `\d+(?:\.\d+)?` at the head of `l`: returns the integer digits, the
fractional digits (empty when the optional group does not participate) and
the rest of the input.  The optional fraction participates exactly when a
dot followed by at least one digit is present, matching the greedy regex
group. -/
def numAt (l : List Char) : Option (List Char × List Char × List Char) :=
  let d := l.takeWhile Char.isDigit
  let r := l.dropWhile Char.isDigit
  if d.isEmpty then none
  else
    match r with
    | '.' :: r2 =>
      let f := r2.takeWhile Char.isDigit
      if f.isEmpty then some (d, [], r)
      else some (d, f, r2.dropWhile Char.isDigit)
    | _ => some (d, [], r)

/-- `Math.round(parseFloat(capture))` for a capture with integer digits `d`
and fractional digits `f`: round half up on the exact decimal value, which
only looks at the first fractional digit. -/
def roundNum (d f : List Char) : Nat :=
  digitsToNat d + (match f with
    | [] => 0
    | c :: _ => if '5' ≤ c then 1 else 0)

/-- Attempt `/SCORE:\s*(\d+(?:\.\d+)?)/i` at this exact start position
(also pattern 2 of the source, `/Score:\s*(\d+(?:\.\d+)?)/i`, which is
identical because both carry the `i` flag). -/
def tryScoreAt (l : List Char) : Option Nat :=
  match stripCI "score:".data l with
  | none => none
  | some r =>
    match numAt (r.dropWhile isJsSpace) with
    | none => none
    | some (d, f, _) => some (roundNum d f)

/-- Attempt `/(\d+(?:\.\d+)?)\/\d+/` at this exact start position. -/
def trySlashAt (l : List Char) : Option Nat :=
  match numAt l with
  | none => none
  | some (d, f, r) =>
    match r with
    | '/' :: r2 =>
      match r2 with
      | c :: _ => if c.isDigit then some (roundNum d f) else none
      | [] => none
    | _ => none

/-- Attempt `/(\d+(?:\.\d+)?)\s*(?:out of|\/)\s*\d+/i` at this start position. -/
def tryOutOfAt (l : List Char) : Option Nat :=
  match numAt l with
  | none => none
  | some (d, f, r) =>
    let r2 := r.dropWhile isJsSpace
    let afterSep : Option (List Char) :=
      match stripCI "out of".data r2 with
      | some r3 => some r3
      | none =>
        match r2 with
        | '/' :: r3 => some r3
        | _ => none
    match afterSep with
    | none => none
    | some r3 =>
      match r3.dropWhile isJsSpace with
      | c :: _ => if c.isDigit then some (roundNum d f) else none
      | [] => none

/-- Leftmost match of a per-position matcher: models `line.match(pattern)`
(first start position, left to right, at which the pattern matches). -/
def findPat (tryAt : List Char → Option Nat) : List Char → Option Nat
  | [] => none
  | c :: cs =>
    match tryAt (c :: cs) with
    | some v => some v
    | none => findPat tryAt cs

/-- The inner pattern loop of the score scan (gemini.ts lines 256-270 and
402-417): the four patterns are tried in order on one line, the first match
giving `Math.round(parseFloat(match[1]))`.  Patterns 1 and 2 of the source
are the same regex (both case-insensitive), so the second try is listed for
fidelity but can never fire when the first failed. -/
def matchScoreValue (line : List Char) : Option Nat :=
  match findPat tryScoreAt line with
  | some v => some v
  | none =>
    match findPat tryScoreAt line with
    | some v => some v
    | none =>
      match findPat trySlashAt line with
      | some v => some v
      | none => findPat tryOutOfAt line

/-- The outer score loop (gemini.ts lines 263-272 / 409-419): running score
starts at 0; a matching line overwrites it with
`Math.min(Math.round(parseFloat(match[1])), maxScore)`; the loop stops as
soon as the running score is strictly positive. -/
def scanScoreAux (maxScore : Nat) : Nat → List (List Char) → Nat
  | acc, [] => acc
  | acc, l :: ls =>
    let acc' := match matchScoreValue l with
      | some v => min v maxScore
      | none => acc
    if acc' > 0 then acc' else scanScoreAux maxScore acc' ls

/-- `lines.findIndex(pred)` followed by taking the found line and everything
after it: returns the first line satisfying `pred` together with the
remaining lines, as the section loops of the source consume them. -/
def sectionAfter (pred : List Char → Bool) : List (List Char) → Option (List Char × List (List Char))
  | [] => none
  | l :: ls => if pred l then some (l, ls) else sectionAfter pred ls

/-- The body collection loop shared by the feedback extractors: collect lines
until one satisfies the stop predicate (the `break` of the source loops). -/
def collectUntil (stop : List Char → Bool) : List (List Char) → List (List Char)
  | [] => []
  | l :: ls => if stop l then [] else l :: collectUntil stop ls

/-- Bullet test of the strengths/improvements loops:
`line.startsWith('-') || line.startsWith('•') || line.match(/^\d+\./)`. -/
def isBullet (l : List Char) : Bool :=
  (match l with
    | '-' :: _ => true
    | '•' :: _ => true
    | _ => false)
  ||
  (match l.takeWhile Char.isDigit with
    | [] => false
    | _ :: _ =>
      match l.dropWhile Char.isDigit with
      | '.' :: _ => true
      | _ => false)

/-- Character class of `line.replace(/^[-•\d.\s]+/, '')`. -/
def isBulletStripChar (c : Char) : Bool :=
  c = '-' || c = '•' || c.isDigit || c = '.' || isJsSpace c

/-- `line.replace(/^[-•\d.\s]+/, '').trim()`: strip the maximal leading run
of bullet characters (which includes digits, dots and whitespace), then trim. -/
def stripBullet (l : List Char) : List Char :=
  trimChars (l.dropWhile isBulletStripChar)

/-- The strengths/improvements collection loop with a stop predicate
(gemini.ts lines 302-313, 318-328, 449-457): bullet lines are collected with
the bullet run stripped; other lines are skipped; a stop line ends the loop. -/
def collectBullets (stop : List Char → Bool) : List (List Char) → List (List Char)
  | [] => []
  | l :: ls =>
    if stop l then []
    else if isBullet l then stripBullet l :: collectBullets stop ls
    else collectBullets stop ls

/-- The generic-variant improvements loop (gemini.ts lines 462-469), which
has no stop condition at all: it scans to the end of the reply. -/
def collectBulletsAll : List (List Char) → List (List Char)
  | [] => []
  | l :: ls =>
    if isBullet l then stripBullet l :: collectBulletsAll ls
    else collectBulletsAll ls

/-- `[].join(' ')` on char lists. -/
def joinSpace (ls : List (List Char)) : List Char :=
  List.intercalate [' '] ls

/-- Strip a case-insensitive marker of length `n` plus the following
whitespace from the front of a line; models `line.replace(/marker:\s*/i, '')`
on a line already known to start with the marker. -/
def stripMarkerWs (n : Nat) (l : List Char) : List Char :=
  (l.drop n).dropWhile isJsSpace

/-- Category extraction (gemini.ts lines 275-276 / 422-423):
`lines.find` with a lower-cased `category:` test, prefix and
following whitespace removed, trimmed; `none` when no such line exists. -/
def extractCategory (lines : List (List Char)) : Option (List Char) :=
  match sectionAfter (startsWithLower "category:".data) lines with
  | none => none
  | some (l, _) => some (trimChars (stripMarkerWs "category:".length l))

/-- Feedback extraction shared shape (gemini.ts lines 279-297 / 426-444):
find the first `feedback:` line; if it is longer than the marker, its
remainder (marker and following whitespace stripped) opens the collection;
following lines are collected until a stop line; everything is joined with
single spaces and trimmed.  The stop predicate differs between the two
variants and is passed in. -/
def extractFeedback (stop : List Char → Bool) (lines : List (List Char)) : List Char :=
  match sectionAfter (startsWithLower "feedback:".data) lines with
  | none => []
  | some (l, rest) =>
    let firstPart := if "feedback:".length < l.length then [stripMarkerWs "feedback:".length l] else []
    trimChars (joinSpace (firstPart ++ collectUntil stop rest))

/-- Stop predicate of the generic-variant feedback loop (gemini.ts line 438):
`strengths:`, `improvements:` or `score:` — note `category:` is absent. -/
def stopFeedbackGeneric (l : List Char) : Bool :=
  startsWithLower "strengths:".data l || startsWithLower "improvements:".data l ||
    startsWithLower "score:".data l

/-- Stop predicate of the code-variant feedback loop (gemini.ts lines
289-291): the code sections — note `score:` and `category:` are absent. -/
def stopFeedbackCode (l : List Char) : Bool :=
  startsWithLower "strengths:".data l || startsWithLower "improvements:".data l ||
    startsWithLower "corrected_code:".data l || startsWithLower "optimized_code:".data l ||
    startsWithLower "code_issues:".data l

/-- Stop predicate of the generic-variant strengths loop (gemini.ts line
452): only `improvements:`. -/
def stopStrengthsGeneric (l : List Char) : Bool :=
  startsWithLower "improvements:".data l

/-- Stop predicate of the code-variant strengths loop (gemini.ts lines
305-308). -/
def stopStrengthsCode (l : List Char) : Bool :=
  startsWithLower "improvements:".data l || startsWithLower "corrected_code:".data l ||
    startsWithLower "optimized_code:".data l || startsWithLower "code_issues:".data l

/-- Stop predicate of the code-variant improvements loop (gemini.ts lines
321-323). -/
def stopImprovementsCode (l : List Char) : Bool :=
  startsWithLower "corrected_code:".data l || startsWithLower "optimized_code:".data l ||
    startsWithLower "code_issues:".data l

/-- Generic-variant strengths (gemini.ts lines 447-457). -/
def extractStrengthsGeneric (lines : List (List Char)) : List (List Char) :=
  match sectionAfter (startsWithLower "strengths:".data) lines with
  | none => []
  | some (_, rest) => collectBullets stopStrengthsGeneric rest

/-- Generic-variant improvements (gemini.ts lines 460-469): no stop line. -/
def extractImprovementsGeneric (lines : List (List Char)) : List (List Char) :=
  match sectionAfter (startsWithLower "improvements:".data) lines with
  | none => []
  | some (_, rest) => collectBulletsAll rest

/-- Code-variant strengths (gemini.ts lines 300-313). -/
def extractStrengthsCode (lines : List (List Char)) : List (List Char) :=
  match sectionAfter (startsWithLower "strengths:".data) lines with
  | none => []
  | some (_, rest) => collectBullets stopStrengthsCode rest

/-- Code-variant improvements (gemini.ts lines 316-328). -/
def extractImprovementsCode (lines : List (List Char)) : List (List Char) :=
  match sectionAfter (startsWithLower "improvements:".data) lines with
  | none => []
  | some (_, rest) => collectBullets stopImprovementsCode rest

/-- Exact literal: if `l` starts with `pat`, return the rest. -/
def stripExact (pat l : List Char) : Option (List Char) :=
  if pat.isPrefixOf l then some (l.drop pat.length) else none

/-- The lazy capture `([\s\S]*?)` followed by a closing fence: splits `l`
into the shortest prefix after which three backticks follow, returning that
prefix and the text after the closing fence. -/
def takeUntilTicks : List Char → Option (List Char × List Char)
  | [] => none
  | c :: cs =>
    if "```".data.isPrefixOf (c :: cs) then some ([], (c :: cs).drop 3)
    else
      match takeUntilTicks cs with
      | some (b, r) => some (c :: b, r)
      | none => none

/-- Attempt `/MARKER\s*```[\w]*\n([\s\S]*?)```/i` at this exact start
position (gemini.ts lines 332, 339): the marker literal (case-insensitive),
greedy whitespace, an opening fence with an optional language tag, a
newline, then the lazy body capture up to the first closing fence. -/
def tryFenceAt (marker : List Char) (l : List Char) : Option (List Char) :=
  match stripCI marker l with
  | none => none
  | some r1 =>
    match stripExact "```".data (r1.dropWhile isJsSpace) with
    | none => none
    | some r3 =>
      match stripExact "\n".data (r3.dropWhile isWordChar) with
      | none => none
      | some r5 =>
        match takeUntilTicks r5 with
        | none => none
        | some (b, _) => some b

/-- Leftmost match of the fenced-block pattern over the raw (unsplit)
response text, as `responseText.match(...)` does. -/
def findFence (marker : List Char) : List Char → Option (List Char)
  | [] => none
  | c :: cs =>
    match tryFenceAt marker (c :: cs) with
    | some b => some b
    | none => findFence marker cs

/-- `let correctedCode = ''; if (match) correctedCode = match[1].trim()`
(gemini.ts lines 331-335); the empty list plays the role of the empty
string. -/
def extractFencedBlock (marker : List Char) (text : List Char) : List Char :=
  match findFence marker text with
  | some b => trimChars b
  | none => []

/-- One parsed code issue.  The source casts the raw `(\w+)` captures to the
`CodeIssue` union types without any runtime validation, so `type` and
`severity` are plain strings here, exactly as they are at runtime. -/
structure CodeIssue where
  type : String
  line : Option Nat
  description : String
  severity : String
  suggestion : String
deriving Repr, DecidableEq

/-- The enum values declared for `CodeIssue.type` in the source interface. -/
def codeIssueTypes : List String :=
  ["syntax", "logic", "performance", "security", "style"]

/-- The enum values declared for `CodeIssue.severity` in the source
interface. -/
def codeIssueSeverities : List String :=
  ["low", "medium", "high", "critical"]

/-- `\s*([^|]+)` (trimmed capture) followed by the rest of the input: skip
whitespace `w`, take the maximal run `d` of non-pipe characters.  The regex
engine backtracks one whitespace character into the capture when `d` is
empty but `w` is not; since the source always trims this capture, that
backtracked capture trims to the empty string, which `trimChars d` also
gives, so only the success condition `w ++ d ≠ []` is kept explicit. -/
def pipeField (l : List Char) : Option (List Char × List Char) :=
  let w := l.takeWhile isJsSpace
  let rB := l.dropWhile isJsSpace
  let d := rB.takeWhile (fun c => c ≠ '|')
  let rC := rB.dropWhile (fun c => c ≠ '|')
  if w.isEmpty && d.isEmpty then none else some (trimChars d, rC)

/-- `\s*\|\s*LINE:\s*(\d+)` — the optional group of the issue pattern. -/
def tryLineGroup (l : List Char) : Option (List Char × List Char) :=
  match (l.dropWhile isJsSpace) with
  | '|' :: r2 =>
    match stripCI "line:".data (r2.dropWhile isJsSpace) with
    | none => none
    | some r3 =>
      let r4 := r3.dropWhile isJsSpace
      let dg := r4.takeWhile Char.isDigit
      if dg.isEmpty then none else some (dg, r4.dropWhile Char.isDigit)
  | _ => none

/-- `\s*\|\s*DESCRIPTION:\s*([^|]+)\s*\|\s*SUGGESTION:\s*(.+)` — the tail of
the issue pattern after the (optional) line group, returning the trimmed
description and suggestion captures. -/
def issueTail (l : List Char) : Option (List Char × List Char) :=
  match (l.dropWhile isJsSpace) with
  | '|' :: r2 =>
    match stripCI "description:".data (r2.dropWhile isJsSpace) with
    | none => none
    | some r4 =>
      match pipeField r4 with
      | none => none
      | some (desc, rC) =>
        match rC with
        | '|' :: rD =>
          match stripCI "suggestion:".data (rD.dropWhile isJsSpace) with
          | none => none
          | some rF =>
            let w2 := rF.takeWhile isJsSpace
            let rG := rF.dropWhile isJsSpace
            if w2.isEmpty && rG.isEmpty then none
            else some (desc, trimChars rG)
        | _ => none
  | _ => none

/-- Attempt the full issue pattern (gemini.ts line 351)
`/TYPE:\s*(\w+)\s*\|\s*SEVERITY:\s*(\w+)(?:\s*\|\s*LINE:\s*(\d+))?\s*\|\s*DESCRIPTION:\s*([^|]+)\s*\|\s*SUGGESTION:\s*(.+)/i`
at this exact start position.  The optional `LINE:` group is greedy: it is
taken when it matches and the remainder of the pattern still succeeds after
it, otherwise the engine backtracks and retries without it. -/
def tryIssueAt (l : List Char) : Option CodeIssue :=
  match stripCI "type:".data l with
  | none => none
  | some r1 =>
    let r2 := r1.dropWhile isJsSpace
    let w1 := r2.takeWhile isWordChar
    if w1.isEmpty then none
    else
      match ((r2.dropWhile isWordChar).dropWhile isJsSpace) with
      | '|' :: r5 =>
        match stripCI "severity:".data (r5.dropWhile isJsSpace) with
        | none => none
        | some r7 =>
          let r8 := r7.dropWhile isJsSpace
          let w2 := r8.takeWhile isWordChar
          if w2.isEmpty then none
          else
            let r9 := r8.dropWhile isWordChar
            let tail : Option (Option Nat × List Char × List Char) :=
              match tryLineGroup r9 with
              | some (dg, r11) =>
                match issueTail r11 with
                | some (d, s) => some (some (digitsToNat dg), d, s)
                | none =>
                  match issueTail r9 with
                  | some (d, s) => some (none, d, s)
                  | none => none
              | none =>
                match issueTail r9 with
                | some (d, s) => some (none, d, s)
                | none => none
            match tail with
            | none => none
            | some (ln, d, s) =>
              some { type := String.mk (w1.map Char.toLower)
                     line := ln
                     description := String.mk d
                     severity := String.mk (w2.map Char.toLower)
                     suggestion := String.mk s }
      | _ => none

/-- Leftmost match of the issue pattern on one line, `line.match(...)`. -/
def findIssue : List Char → Option CodeIssue
  | [] => none
  | c :: cs =>
    match tryIssueAt (c :: cs) with
    | some i => some i
    | none => findIssue cs

/-- Bullet test of the issue loop (gemini.ts line 350): only `-` and `•`
count here (no numbered bullets). -/
def isIssueBullet (l : List Char) : Bool :=
  match l with
  | '-' :: _ => true
  | '•' :: _ => true
  | _ => false

/-- The issue collection loop (gemini.ts lines 348-362): every line after
the marker, to the end of the reply, is examined; bullet lines matching the
issue pattern contribute an issue, all other lines are dropped. -/
def collectIssues : List (List Char) → List CodeIssue
  | [] => []
  | l :: ls =>
    if isIssueBullet l then
      match findIssue l with
      | some i => i :: collectIssues ls
      | none => collectIssues ls
    else collectIssues ls

/-- The lines examined by the issue loop: everything after the first
`code_issues:` line, or nothing when that marker is absent. -/
def issueRegion (lines : List (List Char)) : List (List Char) :=
  match sectionAfter (startsWithLower "code_issues:".data) lines with
  | none => []
  | some (_, rest) => rest

/-- Code issues (gemini.ts lines 345-363). -/
def extractCodeIssues (lines : List (List Char)) : List CodeIssue :=
  collectIssues (issueRegion lines)

/-- The result type of both parse functions (the `AnalysisResult` interface
of the source).  Optional interface fields are `Option`s; the spread
construction `...(x && { x })` of the source makes a field absent exactly
when its string is empty or its list has no elements. -/
structure AnalysisResult where
  score : Nat
  feedback : String
  strengths : List String
  improvements : List String
  category : Option String := none
  correctedCode : Option String := none
  optimizedCode : Option String := none
  codeIssues : Option (List CodeIssue) := none
deriving Repr, DecidableEq

/-- `parseAnalysisResponse` (gemini.ts lines 394-496), the body of its `try`
block.  No statement of that block can throw on any input — the operations
are `split`, `trim`, `filter`, fixed-regex `match`es, `Math` calls and
object construction — so this normal path is the whole observable function;
the `catch` body is modelled separately as `parseAnalysisFallback`. -/
def parseAnalysisResponse (text : String) (maxScore : Nat) : AnalysisResult :=
  let lines := jsLines text.data
  let feedback := extractFeedback stopFeedbackGeneric lines
  let strengths := extractStrengthsGeneric lines
  let improvements := extractImprovementsGeneric lines
  { score := scanScoreAux maxScore 0 lines
    feedback := if feedback.isEmpty then "Analysis completed successfully" else String.mk feedback
    strengths := if strengths.isEmpty then ["Text structure is present"] else strengths.map String.mk
    improvements :=
      if improvements.isEmpty then ["Consider reviewing for clarity"] else improvements.map String.mk
    category := (extractCategory lines).map String.mk }

/-- `parseCodeAnalysisResponse` (gemini.ts lines 248-392), the body of its
`try` block; as for the generic variant the block cannot throw, and the
`catch` body is modelled separately as `parseCodeAnalysisFallback`. -/
def parseCodeAnalysisResponse (text : String) (maxScore : Nat) : AnalysisResult :=
  let lines := jsLines text.data
  let feedback := extractFeedback stopFeedbackCode lines
  let strengths := extractStrengthsCode lines
  let improvements := extractImprovementsCode lines
  let correctedCode := extractFencedBlock "corrected_code:".data text.data
  let optimizedCode := extractFencedBlock "optimized_code:".data text.data
  let codeIssues := extractCodeIssues lines
  { score := scanScoreAux maxScore 0 lines
    feedback := if feedback.isEmpty then "Code analysis completed successfully" else String.mk feedback
    strengths := if strengths.isEmpty then ["Code structure is present"] else strengths.map String.mk
    improvements :=
      if improvements.isEmpty then ["Consider reviewing for best practices"]
      else improvements.map String.mk
    category := (extractCategory lines).map String.mk
    correctedCode := if correctedCode.isEmpty then none else some (String.mk correctedCode)
    optimizedCode := if optimizedCode.isEmpty then none else some (String.mk optimizedCode)
    codeIssues := if codeIssues.isEmpty then none else some codeIssues }

/-- Capture of the catch-path regex
`/(\d+)(?:\s*\/\s*\d+|\s*out\s*of\s*\d+|\s*points?)?/i` (gemini.ts lines
382, 486): the optional tail never constrains the capture, which is simply
the maximal digit run at the first digit of the text, read by `parseInt`. -/
def findFirstNat : List Char → Option Nat
  | [] => none
  | c :: cs =>
    if c.isDigit then some (digitsToNat ((c :: cs).takeWhile Char.isDigit))
    else findFirstNat cs

/-- The `catch` body of `parseAnalysisResponse` (gemini.ts lines 482-495). -/
def parseAnalysisFallback (text : String) (maxScore : Nat) : AnalysisResult :=
  { score := match findFirstNat text.data with
      | some n => min n maxScore
      | none => 50
    feedback := "Analysis completed but parsing encountered issues. Please check the raw response for details."
    strengths := ["Content provided for analysis"]
    improvements := ["Consider simplifying the analysis request"] }

/-- The `catch` body of `parseCodeAnalysisResponse` (gemini.ts lines
379-391). -/
def parseCodeAnalysisFallback (text : String) (maxScore : Nat) : AnalysisResult :=
  { score := match findFirstNat text.data with
      | some n => min n maxScore
      | none => 50
    feedback := "Code analysis completed but parsing encountered issues."
    strengths := ["Code provided for analysis"]
    improvements := ["Consider simplifying the code structure"] }

/-- A persisted `Summary` row (prisma schema: id, inputText, outputText,
createdAt). -/
structure SummaryRecord where
  id : Nat
  inputText : String
  outputText : String
  createdAt : Nat
deriving Repr, DecidableEq

/-- Database state visible to the summarize route: the `Summary` table. -/
structure Db where
  summaries : List SummaryRecord
deriving Repr, DecidableEq

/-- The response sent by the summarize handler. -/
inductive SummarizeResponse where
  | error (status : Nat) (message : String)
  | record (saved : SummaryRecord)
deriving Repr, DecidableEq

/-- Observable outcome of one summarize request: the response, the database
state afterwards, and how many calls were made to the AI client and to
`prisma.summary.create` (instrumentation making the external calls of the
handler visible to theorems). -/
structure SummarizeOutcome where
  response : SummarizeResponse
  db : Db
  aiCalls : Nat
  createCalls : Nat
deriving Repr, DecidableEq

/-- The `POST /summarize` handler (routes/summarize.ts lines 7-29),
parameterised by the AI client and the database-create operation it calls.
`text` is the body field: `none` models a missing field and `some ""` the
falsy empty string, both rejected by `if (!text)`. -/
def summarizeHandler (ai : String → Except String String)
    (create : Db → String → String → Except String (SummaryRecord × Db))
    (db : Db) (text : Option String) : SummarizeOutcome :=
  match text with
  | none => ⟨.error 400 "Text is required", db, 0, 0⟩
  | some t =>
    if t = "" then ⟨.error 400 "Text is required", db, 0, 0⟩
    else
      match ai t with
      | .error _ => ⟨.error 500 "Something went wrong", db, 1, 0⟩
      | .ok summary =>
        match create db t summary with
        | .error _ => ⟨.error 500 "Something went wrong", db, 1, 1⟩
        | .ok (saved, db2) => ⟨.record saved, db2, 1, 1⟩

/-- The score loop never exceeds `maxScore` once the accumulator is within
bounds: every overwrite is `min _ maxScore`. -/
theorem scanScoreAux_le (maxScore : Nat) (ls : List (List Char)) :
    ∀ acc : Nat, acc ≤ maxScore → scanScoreAux maxScore acc ls ≤ maxScore := by
  induction ls with
  | nil => intro acc h; simpa [scanScoreAux] using h
  | cons l ls ih =>
    intro acc h
    simp only [scanScoreAux]
    cases hm : matchScoreValue l with
    | none =>
      by_cases hpos : acc > 0
      · simp [hpos, h]
      · simp [hpos]; exact ih acc h
    | some v =>
      by_cases hpos : min v maxScore > 0
      · simp [hpos, Nat.min_le_right]
      · simp [hpos]; exact ih _ (Nat.min_le_right v maxScore)

/-- When no line matches any score pattern, the accumulator is never
overwritten. -/
theorem scanScoreAux_of_no_match (maxScore : Nat) (ls : List (List Char)) :
    (∀ l ∈ ls, matchScoreValue l = none) → scanScoreAux maxScore 0 ls = 0 := by
  induction ls with
  | nil => intro _; rfl
  | cons l ls ih =>
    intro h
    have hl : matchScoreValue l = none := h l (List.mem_cons_self l ls)
    simp only [scanScoreAux, hl]
    exact ih fun x hx => h x (List.mem_cons_of_mem l hx)

end AIEval

open AIEval

/-- Claim C1, corrected.  The claim asserts `0 <= score <= maxScore` for all
`maxScore > 0` on the normal parsing path and on the exception-fallback path
alike.  It holds on the normal path of both parse functions, but the
exception fallback defaults the score to 50 when the reply contains no
digit, and 50 exceeds `maxScore` whenever `maxScore < 50`: with reply
`"hello"` and `maxScore = 10` the fallback score is 50 > 10. -/
theorem claim_C1_counterexample :
    (parseAnalysisFallback "hello" 10).score = 50 ∧
    ¬ (parseAnalysisFallback "hello" 10).score ≤ 10 ∧
    (parseCodeAnalysisFallback "hello" 10).score = 50 ∧
    ¬ (parseCodeAnalysisFallback "hello" 10).score ≤ 10 := by
  decide

/-- Claim C1, amended.  For every reply and every `maxScore`, both parse
functions yield `score ≤ maxScore` on the normal path (scores are `Nat`, so
`0 ≤ score` holds by construction); on the exception-fallback path the bound
that actually holds is `score ≤ max maxScore 50`, the 50 coming from the
digit-free default. -/
theorem claim_C1_amended (text : String) (maxScore : Nat) :
    (parseAnalysisResponse text maxScore).score ≤ maxScore ∧
    (parseCodeAnalysisResponse text maxScore).score ≤ maxScore ∧
    (parseAnalysisFallback text maxScore).score ≤ max maxScore 50 ∧
    (parseCodeAnalysisFallback text maxScore).score ≤ max maxScore 50 := by
  refine ⟨?_, ?_, ?_, ?_⟩
  · exact scanScoreAux_le maxScore (jsLines text.data) 0 (Nat.zero_le maxScore)
  · exact scanScoreAux_le maxScore (jsLines text.data) 0 (Nat.zero_le maxScore)
  · show (match findFirstNat text.data with
      | some n => min n maxScore
      | none => 50) ≤ max maxScore 50
    cases findFirstNat text.data with
    | none => exact Nat.le_max_right maxScore 50
    | some n => exact Nat.le_trans (Nat.min_le_right n maxScore) (Nat.le_max_left maxScore 50)
  · show (match findFirstNat text.data with
      | some n => min n maxScore
      | none => 50) ≤ max maxScore 50
    cases findFirstNat text.data with
    | none => exact Nat.le_max_right maxScore 50
    | some n => exact Nat.le_trans (Nat.min_le_right n maxScore) (Nat.le_max_left maxScore 50)

/-- Claim C2, corrected.  With a reply in which no line matches any score
pattern, the parse functions do not return the fallback score 50: the
running score is simply never overwritten and the result score is 0.  The
50 default belongs exclusively to the `catch` branch, which the normal
scan cannot reach. -/
theorem claim_C2_counterexample :
    (parseAnalysisResponse "nothing to see" 100).score = 0 ∧
    (parseAnalysisResponse "nothing to see" 100).score ≠ 50 ∧
    (parseCodeAnalysisResponse "nothing to see" 100).score = 0 ∧
    (parseCodeAnalysisResponse "nothing to see" 100).score ≠ 50 := by
  decide

/-- Claim C2, amended.  Given a reply in which no line matches any of the
score patterns, each parse function returns score 0 (the initial running
value) and does not raise; the documented fallback score 50 is produced only
by the exception handler when the text contains no digit at all. -/
theorem claim_C2_amended (text : String) (maxScore : Nat)
    (h : ∀ l ∈ jsLines text.data, matchScoreValue l = none) :
    (parseAnalysisResponse text maxScore).score = 0 ∧
    (parseCodeAnalysisResponse text maxScore).score = 0 :=
  ⟨scanScoreAux_of_no_match maxScore (jsLines text.data) h,
   scanScoreAux_of_no_match maxScore (jsLines text.data) h⟩

theorem claim_C2_witness :
    (∀ l ∈ jsLines "nothing here".data, matchScoreValue l = none) ∧
    (parseAnalysisResponse "nothing here" 100).score = 0 ∧
    (parseCodeAnalysisResponse "nothing here" 100).score = 0 :=
  ⟨by decide, claim_C2_amended "nothing here" 100 (by decide)⟩

/-- Claim C3, confirmed.  The score scan visits the non-empty trimmed lines
in order (both parsers score `jsLines` of the reply); a line matching no
pattern leaves the scan unchanged; the first matching line sets the score to
`min (round N) maxScore` and the scan stops exactly when that value is
nonzero, so a clamped value of 0 leaves the running 0 in place and scanning
continues — a genuine score of 0 is indistinguishable from no score.  In
particular `SCORE: 150` with `maxScore = 100` parses to 100. -/
theorem claim_C3 :
    (∀ (m : Nat) (l : List Char) (ls : List (List Char)),
        matchScoreValue l = none → scanScoreAux m 0 (l :: ls) = scanScoreAux m 0 ls) ∧
    (∀ (m : Nat) (l : List Char) (ls : List (List Char)) (v : Nat),
        matchScoreValue l = some v → 0 < min v m → scanScoreAux m 0 (l :: ls) = min v m) ∧
    (∀ (m : Nat) (l : List Char) (ls : List (List Char)) (v : Nat),
        matchScoreValue l = some v → min v m = 0 → scanScoreAux m 0 (l :: ls) = scanScoreAux m 0 ls) ∧
    (∀ (text : String) (m : Nat),
        (parseAnalysisResponse text m).score = scanScoreAux m 0 (jsLines text.data) ∧
        (parseCodeAnalysisResponse text m).score = scanScoreAux m 0 (jsLines text.data)) ∧
    (parseAnalysisResponse "SCORE: 150" 100).score = 100 ∧
    (parseCodeAnalysisResponse "SCORE: 150" 100).score = 100 := by
  refine ⟨?_, ?_, ?_, fun _ _ => ⟨rfl, rfl⟩, by decide, by decide⟩
  · intro m l ls h
    simp [scanScoreAux, h]
  · intro m l ls v h hpos
    simp [scanScoreAux, h, hpos]
  · intro m l ls v h hzero
    simp [scanScoreAux, h, hzero]

theorem claim_C3_witness :
    scanScoreAux 100 0 ["no digits".data, "SCORE: 75".data] = scanScoreAux 100 0 ["SCORE: 75".data] ∧
    scanScoreAux 100 0 ["SCORE: 75".data] = min 75 100 ∧
    scanScoreAux 100 0 ["SCORE: 0".data, "SCORE: 40".data] = scanScoreAux 100 0 ["SCORE: 40".data] :=
  ⟨claim_C3.1 100 "no digits".data ["SCORE: 75".data] (by decide),
   claim_C3.2.1 100 "SCORE: 75".data [] 75 (by decide) (by decide),
   claim_C3.2.2.1 100 "SCORE: 0".data ["SCORE: 40".data] 0 (by decide) (by decide)⟩

/-- The stop-controlled line collection of the feedback loops is a
`takeWhile` on the negated stop predicate. -/
theorem collectUntil_eq_takeWhile (stop : List Char → Bool) (ls : List (List Char)) :
    collectUntil stop ls = ls.takeWhile (fun l => !stop l) := by
  induction ls with
  | nil => rfl
  | cons l ls ih => cases h : stop l <;> simp [collectUntil, h, ih]

/-- The stop-controlled bullet collection is: take lines until the stop
line, keep the bullet-shaped ones, strip each. -/
theorem collectBullets_eq (stop : List Char → Bool) (ls : List (List Char)) :
    collectBullets stop ls = ((ls.takeWhile (fun l => !stop l)).filter isBullet).map stripBullet := by
  induction ls with
  | nil => rfl
  | cons l ls ih =>
    cases h : stop l
    · cases hb : isBullet l <;> simp [collectBullets, h, hb, ih, List.filter_cons]
    · simp [collectBullets, h]

/-- The stop-free bullet collection (generic improvements) is a plain
filter-and-strip over all remaining lines. -/
theorem collectBulletsAll_eq (ls : List (List Char)) :
    collectBulletsAll ls = (ls.filter isBullet).map stripBullet := by
  induction ls with
  | nil => rfl
  | cons l ls ih => cases hb : isBullet l <;> simp [collectBulletsAll, hb, ih, List.filter_cons]

/-- Every collected code issue originates from a bullet line on which the
issue pattern matched. -/
theorem collectIssues_sound (ls : List (List Char)) (i : AIEval.CodeIssue)
    (h : i ∈ collectIssues ls) :
    ∃ l, l ∈ ls ∧ isIssueBullet l = true ∧ findIssue l = some i := by
  induction ls with
  | nil => simp [collectIssues] at h
  | cons l ls ih =>
    by_cases hb : isIssueBullet l
    · cases hf : findIssue l with
      | some j =>
        simp only [collectIssues, hb, if_true, hf] at h
        rcases List.mem_cons.mp h with h | h
        · exact ⟨l, List.mem_cons_self l ls, hb, by rw [hf, h]⟩
        · obtain ⟨x, hx, hxb, hxf⟩ := ih h
          exact ⟨x, List.mem_cons_of_mem l hx, hxb, hxf⟩
      | none =>
        simp only [collectIssues, hb, if_true, hf] at h
        obtain ⟨x, hx, hxb, hxf⟩ := ih h
        exact ⟨x, List.mem_cons_of_mem l hx, hxb, hxf⟩
    · simp only [collectIssues, hb, if_false] at h
      obtain ⟨x, hx, hxb, hxf⟩ := ih h
      exact ⟨x, List.mem_cons_of_mem l hx, hxb, hxf⟩

/-- A defaulted list field is never empty. -/
theorem defaulted_ne_nil (xs : List (List Char)) (d : String) :
    (if xs.isEmpty then [d] else xs.map String.mk) ≠ [] := by
  cases xs <;> simp

/-- Claim C4, corrected.  The claim says feedback stops at (and excludes)
every other known section-marker line.  A `category:` line is not in the
generic feedback stop list (`strengths:`, `improvements:`, `score:`), so a
category header following `FEEDBACK:` is swallowed into the feedback text
instead of excluded. -/
theorem claim_C4_counterexample :
    (parseAnalysisResponse "FEEDBACK: hi\nCATEGORY: test" 100).feedback = "hi CATEGORY: test" ∧
    (parseAnalysisResponse "FEEDBACK: hi\nCATEGORY: test" 100).feedback ≠ "hi" := by
  decide

/-- Claim C4, amended.  Feedback is the first `feedback:` line (prefix
stripped, and only contributing when longer than the bare marker) followed
by subsequent lines collected up to the first line starting with
`strengths:`, `improvements:` or `score:` in the generic variant
(`strengths:`, `improvements:`, `corrected_code:`, `optimized_code:` or
`code_issues:` in the code variant), joined with spaces; `category:` lines
(and, in the code variant, `score:` lines) are not stop markers and are
included verbatim. -/
theorem claim_C4_amended :
    (∀ (stop : List Char → Bool) (ls : List (List Char)),
        collectUntil stop ls = ls.takeWhile (fun l => !stop l)) ∧
    stopFeedbackGeneric "CATEGORY: b".data = false ∧
    stopFeedbackCode "SCORE: 9".data = false ∧
    (parseAnalysisResponse "FEEDBACK: a\nCATEGORY: b\nSTRENGTHS:\nextra" 100).feedback
      = "a CATEGORY: b" ∧
    (parseCodeAnalysisResponse "FEEDBACK: a\nSCORE: 9\nCORRECTED_CODE:\nextra" 100).feedback
      = "a SCORE: 9" :=
  ⟨collectUntil_eq_takeWhile, by decide, by decide, by decide, by decide⟩

/-- Claim C5, corrected.  The claim says a collected item is the bullet line
with only the bullet marker stripped.  The strip pattern `^[-•\d.\s]+`
removes the whole maximal leading run of dashes, bullets, digits, dots and
whitespace, so content that begins with a number loses it: the strengths
bullet `- 2 eggs` is collected as `eggs`, not `2 eggs`. -/
theorem claim_C5_counterexample :
    (parseAnalysisResponse "STRENGTHS:\n- 2 eggs" 100).strengths = ["eggs"] ∧
    (parseAnalysisResponse "STRENGTHS:\n- 2 eggs" 100).strengths ≠ ["2 eggs"] := by
  decide

/-- Claim C5, amended.  Within a strengths/improvements section exactly the
lines beginning with `-`, `•` or `N.` are collected; each item is the line
with its maximal leading run of `[-•\d.\s]` characters removed and then
trimmed (which can also swallow leading numbers of the item text).
Collection stops at the next marker of the variant-specific stop list —
which for generic strengths is only `improvements:` (a `SCORE:` line does
not stop it), and for generic improvements is empty, the loop running to the
end of the reply. -/
theorem claim_C5_amended :
    (∀ (stop : List Char → Bool) (ls : List (List Char)),
        collectBullets stop ls
          = ((ls.takeWhile (fun l => !stop l)).filter isBullet).map stripBullet) ∧
    (∀ ls : List (List Char),
        collectBulletsAll ls = (ls.filter isBullet).map stripBullet) ∧
    stripBullet "- 2 eggs".data = "eggs".data ∧
    stripBullet "• item".data = "item".data ∧
    stripBullet "3. third".data = "third".data ∧
    (parseAnalysisResponse "STRENGTHS:\n- a\nSCORE: 5\n- b\nIMPROVEMENTS:\n- c" 100).strengths
      = ["a", "b"] ∧
    (parseAnalysisResponse "IMPROVEMENTS:\n- a\nSTRENGTHS:\n- b" 100).improvements
      = ["a", "b"] :=
  ⟨collectBullets_eq, collectBulletsAll_eq, by decide, by decide, by decide, by decide, by decide⟩

/-- Claim C7, confirmed.  Both parse functions return non-empty strengths
and improvements on every input; when the corresponding section is absent or
contains no bullet line, the result is the fixed single-element placeholder
of that variant. -/
theorem claim_C7 (text : String) (maxScore : Nat) :
    (parseAnalysisResponse text maxScore).strengths ≠ [] ∧
    (parseAnalysisResponse text maxScore).improvements ≠ [] ∧
    (parseCodeAnalysisResponse text maxScore).strengths ≠ [] ∧
    (parseCodeAnalysisResponse text maxScore).improvements ≠ [] ∧
    (extractStrengthsGeneric (jsLines text.data) = [] →
      (parseAnalysisResponse text maxScore).strengths = ["Text structure is present"]) ∧
    (extractImprovementsGeneric (jsLines text.data) = [] →
      (parseAnalysisResponse text maxScore).improvements = ["Consider reviewing for clarity"]) ∧
    (extractStrengthsCode (jsLines text.data) = [] →
      (parseCodeAnalysisResponse text maxScore).strengths = ["Code structure is present"]) ∧
    (extractImprovementsCode (jsLines text.data) = [] →
      (parseCodeAnalysisResponse text maxScore).improvements
        = ["Consider reviewing for best practices"]) := by
  refine ⟨defaulted_ne_nil _ _, defaulted_ne_nil _ _, defaulted_ne_nil _ _, defaulted_ne_nil _ _,
    ?_, ?_, ?_, ?_⟩ <;> intro h
  · show (if (extractStrengthsGeneric (jsLines text.data)).isEmpty then _ else _) = _
    rw [h]; rfl
  · show (if (extractImprovementsGeneric (jsLines text.data)).isEmpty then _ else _) = _
    rw [h]; rfl
  · show (if (extractStrengthsCode (jsLines text.data)).isEmpty then _ else _) = _
    rw [h]; rfl
  · show (if (extractImprovementsCode (jsLines text.data)).isEmpty then _ else _) = _
    rw [h]; rfl

theorem claim_C7_witness :
    extractStrengthsGeneric (jsLines "plain".data) = [] ∧
    extractImprovementsGeneric (jsLines "plain".data) = [] ∧
    extractStrengthsCode (jsLines "plain".data) = [] ∧
    extractImprovementsCode (jsLines "plain".data) = [] ∧
    (parseAnalysisResponse "plain" 100).strengths = ["Text structure is present"] ∧
    (parseAnalysisResponse "plain" 100).improvements = ["Consider reviewing for clarity"] ∧
    (parseCodeAnalysisResponse "plain" 100).strengths = ["Code structure is present"] ∧
    (parseCodeAnalysisResponse "plain" 100).improvements = ["Consider reviewing for best practices"] :=
  ⟨by decide, by decide, by decide, by decide,
   (claim_C7 "plain" 100).2.2.2.2.1 (by decide),
   (claim_C7 "plain" 100).2.2.2.2.2.1 (by decide),
   (claim_C7 "plain" 100).2.2.2.2.2.2.1 (by decide),
   (claim_C7 "plain" 100).2.2.2.2.2.2.2 (by decide)⟩

/-- The `codeIssues` field of the code-variant result, as constructed. -/
theorem parseCode_codeIssues_eq (text : String) (maxScore : Nat) :
    (parseCodeAnalysisResponse text maxScore).codeIssues
      = (if (extractCodeIssues (jsLines text.data)).isEmpty then none
         else some (extractCodeIssues (jsLines text.data))) := rfl

/-- Claim C6, corrected.  The claim asserts every returned issue has `type`
among `syntax|logic|performance|security|style` and `severity` among
`low|medium|high|critical`.  The source matches `(\w+)` for both fields and
casts without runtime validation, so a bullet line with arbitrary words in
those positions is returned verbatim (lower-cased): `TYPE: foo` /
`SEVERITY: bar` yields an issue outside both enumerations. -/
theorem claim_C6_counterexample :
    (parseCodeAnalysisResponse
        "CODE_ISSUES:\n- TYPE: foo | SEVERITY: bar | DESCRIPTION: d | SUGGESTION: s" 100).codeIssues
      = some [{ type := "foo", line := none, description := "d", severity := "bar",
                suggestion := "s" }] ∧
    ¬ "foo" ∈ codeIssueTypes ∧ ¬ "bar" ∈ codeIssueSeverities := by
  decide

/-- Claim C6, amended.  Every element of the returned `codeIssues` list
comes from a line after the `CODE_ISSUES:` marker that starts with `-` or
`•` and on which the fixed five-field pipe-delimited pattern matches, the
`type` and `severity` captures being lower-cased word strings that are NOT
validated against the declared enumerations; bullet lines not matching the
pattern are silently dropped. -/
theorem claim_C6_amended (text : String) (maxScore : Nat) (issues : List AIEval.CodeIssue)
    (h : (parseCodeAnalysisResponse text maxScore).codeIssues = some issues) :
    ∀ issue ∈ issues, ∃ l, l ∈ issueRegion (jsLines text.data) ∧
      isIssueBullet l = true ∧ findIssue l = some issue := by
  intro issue hissue
  rw [parseCode_codeIssues_eq] at h
  by_cases he : (extractCodeIssues (jsLines text.data)).isEmpty
  · rw [if_pos he] at h
    exact absurd h (by simp)
  · rw [if_neg he] at h
    have : issues = extractCodeIssues (jsLines text.data) := (Option.some_injective _ h).symm
    subst this
    exact collectIssues_sound (issueRegion (jsLines text.data)) issue hissue

theorem claim_C6_witness :
    ∃ l, l ∈ issueRegion (jsLines
        "CODE_ISSUES:\n- TYPE: logic | SEVERITY: high | LINE: 3 | DESCRIPTION: bad | SUGGESTION: fix".data) ∧
      isIssueBullet l = true ∧
      findIssue l = some { type := "logic", line := some 3, description := "bad",
                           severity := "high", suggestion := "fix" } :=
  claim_C6_amended
    "CODE_ISSUES:\n- TYPE: logic | SEVERITY: high | LINE: 3 | DESCRIPTION: bad | SUGGESTION: fix"
    100
    [{ type := "logic", line := some 3, description := "bad", severity := "high",
       suggestion := "fix" }]
    (by decide)
    { type := "logic", line := some 3, description := "bad", severity := "high",
      suggestion := "fix" }
    (by decide)

/-- A successful case-insensitive literal strip splits the input after a
prefix that lower-cases to the pattern (itself lower-cased). -/
theorem stripCI_sound (pat : List Char) :
    ∀ (l r : List Char), stripCI pat l = some r →
      ∃ pre, l = pre ++ r ∧ pre.map Char.toLower = pat.map Char.toLower := by
  induction pat with
  | nil =>
    intro l r h
    simp only [stripCI, Option.some_inj] at h
    exact ⟨[], by simp [h], rfl⟩
  | cons p ps ih =>
    intro l r h
    cases l with
    | nil => simp [stripCI] at h
    | cons c cs =>
      simp only [stripCI] at h
      by_cases hc : c.toLower = p.toLower
      · rw [if_pos hc] at h
        obtain ⟨pre, hpre, hmap⟩ := ih cs r h
        exact ⟨c :: pre, by simp [hpre], by simp [hmap, hc]⟩
      · rw [if_neg hc] at h
        exact absurd h (by simp)

/-- A successful exact literal strip splits the input after the literal. -/
theorem stripExact_sound (pat l r : List Char) (h : stripExact pat l = some r) :
    l = pat ++ r := by
  unfold stripExact at h
  by_cases hp : pat.isPrefixOf l
  · rw [if_pos hp, Option.some_inj] at h
    obtain ⟨t, ht⟩ := List.isPrefixOf_iff_prefix.mp hp
    subst ht
    rw [← h, List.drop_left]
  · rw [if_neg hp] at h
    exact absurd h (by simp)

/-- The lazy body capture splits the input at the first closing fence: the
input is body, fence, rest, and the body itself contains no fence. -/
theorem takeUntilTicks_spec (l : List Char) :
    ∀ (b r : List Char), takeUntilTicks l = some (b, r) →
      l = b ++ "```".data ++ r ∧ ∀ x y, b ≠ x ++ "```".data ++ y := by
  induction l with
  | nil => intro b r h; simp [takeUntilTicks] at h
  | cons c cs ih =>
    intro b r h
    simp only [takeUntilTicks] at h
    by_cases hp : "```".data.isPrefixOf (c :: cs)
    · rw [if_pos hp, Option.some_inj] at h
      injection h with hb hr
      obtain ⟨t, ht⟩ := List.isPrefixOf_iff_prefix.mp hp
      subst hb
      subst hr
      constructor
      · rw [← ht]
        rfl
      · intro x y hxy
        have hlen := congrArg List.length hxy
        rw [List.length_append, List.length_append] at hlen
        rw [show ("```".data).length = 3 from rfl] at hlen
        simp only [List.length_nil] at hlen
        omega
    · rw [if_neg hp] at h
      cases hm : takeUntilTicks cs with
      | none => rw [hm] at h; cases h
      | some br =>
        obtain ⟨b2, r2⟩ := br
        rw [hm, Option.some_inj] at h
        injection h with hb hr
        obtain ⟨hcs, hnot⟩ := ih b2 r2 hm
        subst hcs
        subst hb
        subst hr
        constructor
        · rfl
        · intro x y hxy
          cases x with
          | nil =>
            rw [List.nil_append] at hxy
            apply hp
            apply List.isPrefixOf_iff_prefix.mpr
            refine ⟨y ++ ("```".data ++ r2), ?_⟩
            simp only [← List.append_assoc]
            rw [← hxy]
            simp
          | cons d x2 =>
            rw [List.cons_append] at hxy
            injection hxy with hcd hrest
            exact hnot x2 y hrest

/-- Splitting a list at a predicate boundary restores the list. -/
theorem takeWhile_append_dropWhile_eq (p : Char → Bool) (l : List Char) :
    l.takeWhile p ++ l.dropWhile p = l := by
  induction l with
  | nil => rfl
  | cons c cs ih =>
    by_cases h : p c <;> simp [List.takeWhile_cons, List.dropWhile_cons, h, ih]

/-- Every character kept by `takeWhile` satisfies the predicate. -/
theorem all_takeWhile (p : Char → Bool) (l : List Char) :
    (l.takeWhile p).all p = true := by
  induction l with
  | nil => rfl
  | cons c cs ih => by_cases h : p c <;> simp [List.takeWhile_cons, h, ih]

/-- A successful fence match at a fixed position decomposes the input into
marker, whitespace, opening fence, language tag, newline, captured body,
closing fence and remainder, with the body fence-free. -/
theorem tryFenceAt_sound (marker l b : List Char) (h : tryFenceAt marker l = some b) :
    ∃ mk ws lang rest,
      l = mk ++ ws ++ "```".data ++ lang ++ "\n".data ++ b ++ "```".data ++ rest ∧
      mk.map Char.toLower = marker.map Char.toLower ∧
      ws.all isJsSpace = true ∧ lang.all isWordChar = true ∧
      (∀ x y, b ≠ x ++ "```".data ++ y) := by
  cases h1 : stripCI marker l with
  | none => simp [tryFenceAt, h1] at h
  | some r1 =>
    cases h2 : stripExact "```".data (r1.dropWhile isJsSpace) with
    | none => simp [tryFenceAt, h1, h2] at h
    | some r3 =>
      cases h3 : stripExact "\n".data (r3.dropWhile isWordChar) with
      | none => simp [tryFenceAt, h1, h2, h3] at h
      | some r5 =>
        cases h4 : takeUntilTicks r5 with
        | none => simp [tryFenceAt, h1, h2, h3, h4] at h
        | some brr =>
          obtain ⟨bb, rest⟩ := brr
          have hb : bb = b := by simp [tryFenceAt, h1, h2, h3, h4] at h; exact h
          subst hb
          obtain ⟨mk, hmk, hmkmap⟩ := stripCI_sound marker l r1 h1
          have hdrop1 := stripExact_sound _ _ _ h2
          have hdrop2 := stripExact_sound _ _ _ h3
          obtain ⟨hb5, hnof⟩ := takeUntilTicks_spec r5 bb rest h4
          refine ⟨mk, r1.takeWhile isJsSpace, r3.takeWhile isWordChar, rest, ?_, hmkmap,
            all_takeWhile isJsSpace r1, all_takeWhile isWordChar r3, hnof⟩
          calc l = mk ++ r1 := hmk
            _ = mk ++ (r1.takeWhile isJsSpace ++ r1.dropWhile isJsSpace) := by
                rw [takeWhile_append_dropWhile_eq]
            _ = mk ++ (r1.takeWhile isJsSpace ++ ("```".data ++ r3)) := by rw [hdrop1]
            _ = mk ++ (r1.takeWhile isJsSpace
                ++ ("```".data ++ (r3.takeWhile isWordChar ++ r3.dropWhile isWordChar))) := by
                rw [takeWhile_append_dropWhile_eq]
            _ = mk ++ (r1.takeWhile isJsSpace
                ++ ("```".data ++ (r3.takeWhile isWordChar ++ ("\n".data ++ r5)))) := by
                rw [hdrop2]
            _ = mk ++ (r1.takeWhile isJsSpace
                ++ ("```".data ++ (r3.takeWhile isWordChar
                  ++ ("\n".data ++ (bb ++ "```".data ++ rest))))) := by rw [← hb5]
            _ = mk ++ r1.takeWhile isJsSpace ++ "```".data ++ r3.takeWhile isWordChar
                ++ "\n".data ++ bb ++ "```".data ++ rest := by simp [List.append_assoc]

/-- Leftmost-match soundness of the fenced-block search over the whole
response text. -/
theorem findFence_sound (marker : List Char) :
    ∀ (l b : List Char), findFence marker l = some b →
      ∃ pre mk ws lang rest,
        l = pre ++ mk ++ ws ++ "```".data ++ lang ++ "\n".data ++ b ++ "```".data ++ rest ∧
        mk.map Char.toLower = marker.map Char.toLower ∧
        ws.all isJsSpace = true ∧ lang.all isWordChar = true ∧
        (∀ x y, b ≠ x ++ "```".data ++ y) := by
  intro l
  induction l with
  | nil => intro b h; simp [findFence] at h
  | cons c cs ih =>
    intro b h
    simp only [findFence] at h
    cases ht : tryFenceAt marker (c :: cs) with
    | some b1 =>
      rw [ht] at h
      injection h with hb
      subst hb
      obtain ⟨mk, ws, lang, rest, hsplit, hmap, hws, hlang, hnof⟩ := tryFenceAt_sound marker _ _ ht
      exact ⟨[], mk, ws, lang, rest, by simpa using hsplit, hmap, hws, hlang, hnof⟩
    | none =>
      rw [ht] at h
      obtain ⟨pre, mk, ws, lang, rest, hsplit, hmap, hws, hlang, hnof⟩ := ih b h
      refine ⟨c :: pre, mk, ws, lang, rest, ?_, hmap, hws, hlang, hnof⟩
      simp only [List.cons_append]
      rw [← hsplit]

/-- The `correctedCode` field of the code-variant result, as constructed. -/
theorem parseCode_corrected_eq (text : String) (maxScore : Nat) :
    (parseCodeAnalysisResponse text maxScore).correctedCode
      = (if (extractFencedBlock "corrected_code:".data text.data).isEmpty then none
         else some (String.mk (extractFencedBlock "corrected_code:".data text.data))) := rfl

/-- The `optimizedCode` field of the code-variant result, as constructed. -/
theorem parseCode_optimized_eq (text : String) (maxScore : Nat) :
    (parseCodeAnalysisResponse text maxScore).optimizedCode
      = (if (extractFencedBlock "optimized_code:".data text.data).isEmpty then none
         else some (String.mk (extractFencedBlock "optimized_code:".data text.data))) := rfl

/-- Claim C8, confirmed.  Whenever the fenced-block search succeeds, the
reply decomposes into a `CORRECTED_CODE:`/`OPTIMIZED_CODE:` marker (up to
case), whitespace, an opening fence with a word-character language tag, a
newline, the captured body (which contains no fence, being cut at the first
closing fence), the closing fence and the remainder — so the captured text
is exactly the inner text of the block, without the fence markers or the
language tag — and the parser stores that body trimmed in the
corresponding optional field. -/
theorem claim_C8 :
    (∀ (marker : List Char) (text : String) (body : List Char),
        findFence marker text.data = some body →
        ∃ pre mk ws lang rest,
          text.data
            = pre ++ mk ++ ws ++ "```".data ++ lang ++ "\n".data ++ body ++ "```".data ++ rest ∧
          mk.map Char.toLower = marker.map Char.toLower ∧
          ws.all isJsSpace = true ∧ lang.all isWordChar = true ∧
          (∀ x y, body ≠ x ++ "```".data ++ y)) ∧
    (∀ (text : String) (maxScore : Nat) (body : List Char),
        findFence "corrected_code:".data text.data = some body → trimChars body ≠ [] →
        (parseCodeAnalysisResponse text maxScore).correctedCode
          = some (String.mk (trimChars body))) ∧
    (∀ (text : String) (maxScore : Nat) (body : List Char),
        findFence "optimized_code:".data text.data = some body → trimChars body ≠ [] →
        (parseCodeAnalysisResponse text maxScore).optimizedCode
          = some (String.mk (trimChars body))) ∧
    (parseCodeAnalysisResponse "CORRECTED_CODE:\n```js\nlet x = 1;\n```" 100).correctedCode
      = some "let x = 1;" ∧
    (parseCodeAnalysisResponse "OPTIMIZED_CODE:\n```python\n y = 2 \n```" 100).optimizedCode
      = some "y = 2" := by
  refine ⟨fun marker text body h => findFence_sound marker text.data body h, ?_, ?_,
    by decide, by decide⟩
  · intro text maxScore body h hne
    have hext : extractFencedBlock "corrected_code:".data text.data = trimChars body := by
      simp [extractFencedBlock, h]
    rw [parseCode_corrected_eq, hext, if_neg]
    simp [hne]
  · intro text maxScore body h hne
    have hext : extractFencedBlock "optimized_code:".data text.data = trimChars body := by
      simp [extractFencedBlock, h]
    rw [parseCode_optimized_eq, hext, if_neg]
    simp [hne]

theorem claim_C8_witness :
    findFence "corrected_code:".data "CORRECTED_CODE: ```\nabc\n```".data = some "abc\n".data ∧
    (parseCodeAnalysisResponse "CORRECTED_CODE: ```\nabc\n```" 100).correctedCode = some "abc" ∧
    (∃ pre mk ws lang rest,
      "CORRECTED_CODE: ```\nabc\n```".data
        = pre ++ mk ++ ws ++ "```".data ++ lang ++ "\n".data ++ "abc\n".data ++ "```".data ++ rest ∧
      mk.map Char.toLower = "corrected_code:".data.map Char.toLower ∧
      ws.all isJsSpace = true ∧ lang.all isWordChar = true ∧
      (∀ x y, "abc\n".data ≠ x ++ "```".data ++ y)) :=
  ⟨by decide,
   claim_C8.2.1 "CORRECTED_CODE: ```\nabc\n```" 100 "abc\n".data (by decide) (by decide),
   claim_C8.1 "corrected_code:".data "CORRECTED_CODE: ```\nabc\n```" "abc\n".data (by decide)⟩

/-- Claim C9, confirmed.  For a request body whose `text` field is missing
or falsy, the summarize handler responds 400 with `Text is required`, leaves
the database unchanged, and calls neither the AI client nor the database
create operation — for every AI client, every create operation and every
starting database state. -/
theorem claim_C9 (ai : String → Except String String)
    (create : AIEval.Db → String → String → Except String (AIEval.SummaryRecord × AIEval.Db))
    (db : AIEval.Db) (text : Option String)
    (h : text = none ∨ text = some "") :
    summarizeHandler ai create db text
      = ⟨.error 400 "Text is required", db, 0, 0⟩ := by
  rcases h with h | h <;> subst h <;> simp [summarizeHandler]

theorem claim_C9_witness :
    summarizeHandler (fun t => .ok t)
      (fun db t s => .ok (⟨1, t, s, 0⟩, ⟨db.summaries ++ [⟨1, t, s, 0⟩]⟩))
      ⟨[]⟩ none
      = ⟨.error 400 "Text is required", ⟨[]⟩, 0, 0⟩ :=
  claim_C9 (fun t => .ok t)
    (fun db t s => .ok (⟨1, t, s, 0⟩, ⟨db.summaries ++ [⟨1, t, s, 0⟩]⟩))
    ⟨[]⟩ none (Or.inl rfl)

/-- Claim C10, confirmed.  In the code-variant success path the optional
fields are present exactly when non-empty content was extracted: a fenced
block whose trimmed body is empty, or zero conforming issue lines, leave the
field absent (never `some ""` / `some []`); and the exception-fallback
result carries none of `correctedCode`, `optimizedCode`, `codeIssues`,
`category`. -/
theorem claim_C10 (text : String) (maxScore : Nat) :
    ((parseCodeAnalysisResponse text maxScore).correctedCode.isSome
      ↔ extractFencedBlock "corrected_code:".data text.data ≠ []) ∧
    ((parseCodeAnalysisResponse text maxScore).optimizedCode.isSome
      ↔ extractFencedBlock "optimized_code:".data text.data ≠ []) ∧
    ((parseCodeAnalysisResponse text maxScore).codeIssues.isSome
      ↔ extractCodeIssues (jsLines text.data) ≠ []) ∧
    (parseCodeAnalysisResponse text maxScore).correctedCode ≠ some "" ∧
    (parseCodeAnalysisResponse text maxScore).optimizedCode ≠ some "" ∧
    (parseCodeAnalysisResponse text maxScore).codeIssues ≠ some [] ∧
    (parseCodeAnalysisResponse "CORRECTED_CODE:\n```\n   \n```" 100).correctedCode = none ∧
    (parseCodeAnalysisFallback text maxScore).correctedCode = none ∧
    (parseCodeAnalysisFallback text maxScore).optimizedCode = none ∧
    (parseCodeAnalysisFallback text maxScore).codeIssues = none ∧
    (parseCodeAnalysisFallback text maxScore).category = none := by
  refine ⟨?_, ?_, ?_, ?_, ?_, ?_, by decide, rfl, rfl, rfl, rfl⟩
  · rw [parseCode_corrected_eq]
    cases hx : extractFencedBlock "corrected_code:".data text.data <;> simp [hx]
  · rw [parseCode_optimized_eq]
    cases hx : extractFencedBlock "optimized_code:".data text.data <;> simp [hx]
  · rw [parseCode_codeIssues_eq]
    cases hx : extractCodeIssues (jsLines text.data) <;> simp [hx]
  · rw [parseCode_corrected_eq]
    cases hx : extractFencedBlock "corrected_code:".data text.data with
    | nil => simp
    | cons c cs => simp [String.ext_iff]
  · rw [parseCode_optimized_eq]
    cases hx : extractFencedBlock "optimized_code:".data text.data with
    | nil => simp
    | cons c cs => simp [String.ext_iff]
  · rw [parseCode_codeIssues_eq]
    cases hx : extractCodeIssues (jsLines text.data) <;> simp

theorem claim_C10_witness :
    ((parseCodeAnalysisResponse "CORRECTED_CODE:\n```\nok\n```" 100).correctedCode.isSome
      ↔ extractFencedBlock "corrected_code:".data "CORRECTED_CODE:\n```\nok\n```".data ≠ []) ∧
    (parseCodeAnalysisFallback "CORRECTED_CODE:\n```\nok\n```" 100).correctedCode = none :=
  ⟨(claim_C10 "CORRECTED_CODE:\n```\nok\n```" 100).1,
   (claim_C10 "CORRECTED_CODE:\n```\nok\n```" 100).2.2.2.2.2.2.2.1⟩
